import Mathlib

/-!
Verification of the segment-lifecycle pipeline of the AIAT_Snippets repository.

The Python sources embedded here are `src/src/Agent_snippets_generation.py`
(the script pipeline) and `src/src/app/services/agent_service.py` (the service
pipeline).  Pure fragments are translated into executable Lean definitions;
the external text-generation oracle is modelled as an explicit function
argument (per batch / per attempt), exactly the shape of data the Python code
receives back from its parsing helpers.  Python floats carried around as
opaque timestamps (`start_second`, `end_second`) are never computed with by
the code under verification — they are only copied — so they are embedded as
integers.  Python string primitives used by the code (`str.split`,
`in`, `str.strip`, `int(...)`, `str.isdigit`, `" ".join`) are modelled by
executable functions over `List Char` / `String` defined below.
-/

/-! ## Data model -/
/-- One atomic transcript line, as produced by Step 1 of `run_preprocessing`
(`item['mini_seg_id'] = i` over the enumerated input list). -/
structure MiniUnit where
  mini_seg_id : Nat
  text : String
  start_second : Int
  end_second : Int
deriving Repr, DecidableEq

/-- A merged run of consecutive MiniUnits, as built by `execute_merge_plan`.
The Python dict key `"end"` is rendered as the field name `end_` because
`end` is reserved in Lean. -/
structure BigSegment where
  id : String
  text : String
  start : Int
  end_ : Int
  mini_segments_used : List Nat
deriving Repr, DecidableEq

/-- A `{id, reason}` removal object, as returned by `call_llm_for_cleansing`
(which guarantees both keys are present, substituting a placeholder reason). -/
structure RemovalRecord where
  id : String
  reason : String
deriving Repr, DecidableEq

/-! ## Python string helpers

`" ".join(...)` on a list of strings (Python semantics: empty list gives "",
separator only between elements). -/
def pyJoin (sep : String) : List String → String
  | [] => ""
  | [x] => x
  | x :: y :: rest => x ++ sep ++ pyJoin sep (y :: rest)

/-! ## Segment Merger (`execute_merge_plan`)

Python (identical in both sources):

    merged_segments = []
    current_start_idx = 0
    seg_counter = 1
    for break_idx in break_points:
        slice_end = break_idx + 1
        if slice_end > len(mini_segments): slice_end = len(mini_segments)
        chunk = mini_segments[current_start_idx : slice_end]
        if not chunk:
            current_start_idx = slice_end
            continue
        ... emit BigSegment, current_start_idx = slice_end, seg_counter += 1

Breakpoints are natural numbers: `call_llm_for_segmentation` only ever
returns non-negative integers (proved below for claim C10), so slices are
ordinary clamped slices. -/
/-- Python slice `mini_segments[current_start_idx : slice_end]` with
`0 ≤ current_start_idx` and `0 ≤ slice_end ≤ len`. -/
def mergeChunk (ms : List MiniUnit) (cursor slice_end : Nat) : List MiniUnit :=
  (ms.drop cursor).take (slice_end - cursor)

/-- One emitted BigSegment: id `seg_{counter}`, single-space-joined text,
start of first / end of last constituent, full id list. -/
def mkBigSegment (counter : Nat) (chunk : List MiniUnit) : BigSegment :=
  { id := "seg_" ++ toString counter
  , text := pyJoin " " (chunk.map MiniUnit.text)
  , start := ((chunk.head?).map MiniUnit.start_second).getD 0
  , end_ := ((chunk.getLast?).map MiniUnit.end_second).getD 0
  , mini_segments_used := chunk.map MiniUnit.mini_seg_id }

/-- The loop of `execute_merge_plan`, with the cursor
(`current_start_idx`) and counter (`seg_counter`) as explicit accumulators. -/
def execute_merge_plan_go (ms : List MiniUnit) : List Nat → Nat → Nat → List BigSegment
  | [], _, _ => []
  | bp :: rest, cursor, counter =>
    if mergeChunk ms cursor (min (bp + 1) ms.length) = [] then
      execute_merge_plan_go ms rest (min (bp + 1) ms.length) counter
    else
      mkBigSegment counter (mergeChunk ms cursor (min (bp + 1) ms.length))
        :: execute_merge_plan_go ms rest (min (bp + 1) ms.length) (counter + 1)

/-- Function `execute_merge_plan(mini_segments, break_points)`. -/
def execute_merge_plan (ms : List MiniUnit) (break_points : List Nat) : List BigSegment :=
  execute_merge_plan_go ms break_points 0 1

/-- Twelve concrete MiniUnits with positional ids, for the scenario in §8 of the
spec (12 MiniUnits, breakpoints [4, 11]). -/
def sample12 : List MiniUnit :=
  (List.range 12).map (fun i => ⟨i, "line" ++ toString i, (i : Int), (i : Int) + 1⟩)

/-- Two concrete MiniUnits with positional ids (witness input). -/
def ms2 : List MiniUnit := [⟨0, "alpha", 0, 1⟩, ⟨1, "beta", 1, 2⟩]

/-! ## Python value and string-of-int helpers (for the defensive parsers) -/
/-- A decoded JSON value, as `json.loads` produces it (Python maps integer
literals to int, decimals to float, and `true`/`false` to bool; the float
payload is carried as a rational but never inspected by the code). -/
inductive JValue where
  | jnull
  | jbool (b : Bool)
  | jint (n : Int)
  | jfloat (q : Rat)
  | jstr (s : String)
  | jarr (elems : List JValue)
  | jobj (fields : List (String × JValue))

/-- Python `s.isdigit()` on the ASCII-digit fragment: nonempty and all
characters are decimal digits. -/
def str_isdigit (s : String) : Bool :=
  !s.toList.isEmpty && s.toList.all Char.isDigit

/-- Decimal digit characters of a natural number, most significant first,
with explicit recursion fuel (any fuel above the number suffices). -/
def natDigitsAux : Nat → Nat → List Char
  | 0, _ => []
  | fuel + 1, n =>
    if n < 10 then [Nat.digitChar n]
    else natDigitsAux fuel (n / 10) ++ [Nat.digitChar (n % 10)]

/-- Decimal digit characters of a natural number, most significant first
(the digits of Python `str(n)` for `n ≥ 0`). -/
def natDigits (n : Nat) : List Char := natDigitsAux (n + 1) n

/-- Python `str(x)` for an int `x`. -/
def pyStrOfInt (n : Int) : String :=
  if n < 0 then String.mk ('-' :: natDigits n.natAbs) else String.mk (natDigits n.toNat)

/-- Python `str(x)` for a bool `x`. -/
def pyStrOfBool (b : Bool) : String :=
  if b then "True" else "False"

/-- Numeric value of a list of decimal digit characters (Python `int(s)` on
an all-digit string; leading zeros are accepted). -/
def digitsVal (l : List Char) : Nat :=
  l.foldl (fun a c => a * 10 + (c.toNat - 48)) 0

/-! ## Segmentation oracle-response parser (`call_llm_for_segmentation`)

Python (identical in both sources), applied to the JSON-decoded bracketed
region of the oracle's raw text (`none` = no match / decode failure / oracle
failure, each of which yields `[]`):

    return [int(x) for x in breaks if isinstance(x, (int, str)) and str(x).isdigit()]

Note Python's `isinstance(x, (int, str))` is also true for bools (bool is a
subclass of int), which are then rejected by `str(x).isdigit()`. -/
/-- The per-element filter of the comprehension above. -/
def seg_keep_element : JValue → Option Int
  | .jint n => if str_isdigit (pyStrOfInt n) then some n else none
  | .jbool b => if str_isdigit (pyStrOfBool b) then some (if b then 1 else 0) else none
  | .jstr s => if str_isdigit s then some ((digitsVal s.toList : Nat) : Int) else none
  | _ => none

/-- Function `call_llm_for_segmentation`, abstracted over the decode outcome. -/
def call_llm_for_segmentation_parse : Option (List JValue) → List Int
  | none => []
  | some breaks => breaks.filterMap seg_keep_element

/-- Modelled from the claim's words, for comparison with the source-derived
`seg_keep_element`: keep non-negative integers as they are, convert pure
digit strings, drop everything else (negatives, booleans, floats, nested
values). -/
def segmentation_keep_spec : JValue → Option Int
  | .jint n => if 0 ≤ n then some n else none
  | .jstr s => if str_isdigit s then some ((digitsVal s.toList : Nat) : Int) else none
  | _ => none

/-! ## Segmentation Planner (`get_batched_segmentation_plan`)

The oracle is abstracted per batch index as a function `Nat → List Nat`;
by claim C10 the parsed per-batch result is always a list of non-negative
integers, so `List Nat` is the exact shape `batch_breaks` can take.  The
guideline bounds `min_guide` / `max_guide` only enter the prompt text and are
absorbed into the oracle abstraction. -/
/-- Python `sorted(list(set(xs)))`. `insertionSort` here produces the unique
ascending ordering of the distinct elements, which is what `sorted` returns
on the set's elements. -/
def sortedDedupNat (l : List Nat) : List Nat :=
  List.insertionSort (· ≤ ·) l.dedup

/-- The gathering loop: `for i in range(num_batches): ... if start_idx >=
total: break ... all_break_points.extend(batch_breaks)`.  Because
`start_idx = i * batch_size` is monotone in `i`, breaking at the first
out-of-range index is the same as keeping exactly the in-range indices. -/
def planner_gather (oracle : Nat → List Nat) (batch_size total num_batches : Nat) : List Nat :=
  ((List.range num_batches).filter (fun i => i * batch_size < total)).flatMap oracle

/-- The final coverage step:

    last_global_id = total_segments - 1
    if not all_break_points or (all_break_points and all_break_points[-1] < last_global_id):
        all_break_points.append(last_global_id)
-/
def planner_append_last (bps : List Nat) (last_global_id : Nat) : List Nat :=
  match bps.getLast? with
  | none => [last_global_id]
  | some m => if m < last_global_id then bps ++ [last_global_id] else bps

/-- Function `get_batched_segmentation_plan(mini_segments, min_guide, max_guide,
num_batches)` with the oracle explicit; `batch_size = ceil(total / num_batches)`. -/
def get_batched_segmentation_plan (oracle : Nat → List Nat) (mini_segments : List MiniUnit)
    (num_batches : Nat) : List Nat :=
  if mini_segments.length = 0 then []
  else
    planner_append_last
      (sortedDedupNat
        (planner_gather oracle ((mini_segments.length + num_batches - 1) / num_batches)
          mini_segments.length num_batches))
      (mini_segments.length - 1)

/-- A single concrete MiniUnit (counterexample input). -/
def miniA : MiniUnit := ⟨0, "a", 0, 1⟩

/-- Witness input for C10. -/
def jlist0 : List JValue :=
  [.jint 3, .jint (-2), .jbool true, .jfloat (1 / 2 : Rat), .jstr "42", .jstr "a1",
   .jarr [], .jnull]

/-! ## Cleansing Filter (`run_batched_llm_cleansing`, `filter_and_save_cleansed`)

The per-batch oracle results are the lists returned by
`call_llm_for_cleansing`, which only ever returns dicts that have an `id`
key and carry a `reason` (a placeholder is substituted when missing), so a
batch result is a `List RemovalRecord`.  The accumulation loop

    for i in range(num_batches):
        ...
        batch_removal_data = call_llm_for_cleansing(current_batch)
        if batch_removal_data:
            for item in batch_removal_data:
                if isinstance(item, dict) and 'id' in item and item['id'] not in seen_ids:
                    all_removal_objects.append(item)
                    seen_ids.add(item['id'])

walks the concatenation of the batch results in order, keeping the first
record for each id. -/
/-- The first-wins accumulation over the concatenated batch results, with the
`seen_ids` set as an explicit argument. -/
def dedupFirstWins : List RemovalRecord → List String → List RemovalRecord
  | [], _ => []
  | r :: rest, seen =>
    if r.id ∈ seen then dedupFirstWins rest seen
    else r :: dedupFirstWins rest (r.id :: seen)

/-- Python single-character `str.split(c)` on a character list
(for example `"a__b".split('_') == ['a', '', 'b']`). -/
def splitOnChar (c : Char) : List Char → List (List Char)
  | [] => [[]]
  | x :: rest =>
    if x = c then [] :: splitOnChar c rest
    else
      match splitOnChar c rest with
      | [] => [[x]]
      | g :: gs => (x :: g) :: gs

/-- Whitespace accepted by Python `int(...)` around the number. -/
def isPySpace (c : Char) : Bool :=
  (c == ' ') || (c == '\t') || (c == '\n') || (c == '\r') || (c == '\x0b') || (c == '\x0c')

/-- Python `str.strip()` of surrounding whitespace. -/
def pyStrip (l : List Char) : List Char :=
  ((l.dropWhile isPySpace).reverse.dropWhile isPySpace).reverse

/-- Decimal digit run to its value, or `none` when empty or not all digits. -/
def digitsOpt (l : List Char) : Option Nat :=
  if !l.isEmpty && l.all Char.isDigit then some (digitsVal l) else none

/-- Python `int(s)` on the ASCII fragment: optional surrounding whitespace,
optional sign, then a nonempty digit run; `none` models a raised
`ValueError`. -/
def pyIntOfCharList (l : List Char) : Option Int :=
  match pyStrip l with
  | [] => none
  | c :: rest =>
    if c = '-' then (digitsOpt rest).map (fun n => -(n : Int))
    else if c = '+' then (digitsOpt rest).map (fun n => (n : Int))
    else (digitsOpt (c :: rest)).map (fun n => (n : Int))

/-- The sort key of `all_removal_objects.sort(key=...)`:

    int(x['id'].split('_')[1]) if '_' in x['id'] else 0

`none` models a raised exception while computing the key. -/
def removal_sort_key (id : String) : Option Int :=
  if id.toList.contains '_' then pyIntOfCharList ((splitOnChar '_' id.toList).getD 1 [])
  else some 0

/-- The key with its (never-used-on-failure) default, for stating sortedness. -/
def removalKeyD (r : RemovalRecord) : Int :=
  (removal_sort_key r.id).getD 0

/-- The `try: all_removal_objects.sort(...) except: pass` step.  CPython
computes all keys before comparing, restoring the list unchanged if any key
raises; a stable sort by integer keys is fully determined, so any stable
sort realizes it — `insertionSort` with a non-strict key comparison is
stable. -/
def sortRemovals (l : List RemovalRecord) : List RemovalRecord :=
  if l.all (fun r => (removal_sort_key r.id).isSome) then
    List.insertionSort (fun a b => removalKeyD a ≤ removalKeyD b) l
  else l

/-- The merge performed by `run_batched_llm_cleansing` over the per-batch
oracle results, in batch order: first-wins accumulation, then the guarded
sort. -/
def run_batched_llm_cleansing_merge (batches : List (List RemovalRecord)) : List RemovalRecord :=
  sortRemovals (dedupFirstWins batches.flatten [])

/-- Function `filter_and_save_cleansed`: keep the segments whose id was not flagged,
preserving order. -/
def filter_and_save_cleansed (input_segments : List BigSegment)
    (removal_data : List RemovalRecord) : List BigSegment :=
  input_segments.filter (fun s => !(removal_data.any (fun r => r.id == s.id)))

/-- Witness input for C4: two batches both flagging seg_2, the second also
flagging seg_1. -/
def cleansingBatches : List (List RemovalRecord) :=
  [[⟨"seg_2", "first reason"⟩], [⟨"seg_2", "second reason"⟩, ⟨"seg_1", "other"⟩]]

/-! ## Claim C5 -/
/-- Two batch sequences flagging the same id with different reasons, in the
two orders. -/
def permBatchesA : List (List RemovalRecord) := [[⟨"seg_1", "reason A"⟩], [⟨"seg_1", "reason B"⟩]]

def permBatchesB : List (List RemovalRecord) := [[⟨"seg_1", "reason B"⟩], [⟨"seg_1", "reason A"⟩]]

/-- Witness inputs for the amended C5. -/
def bsW : List (List RemovalRecord) := [[⟨"seg_1", "reason A"⟩], [⟨"seg_2", "reason B"⟩]]

def bsW2 : List (List RemovalRecord) := [[⟨"seg_2", "reason B"⟩], [⟨"seg_1", "reason A"⟩]]

def segsW : List BigSegment := [⟨"seg_1", "t1", 0, 1, [0]⟩, ⟨"seg_3", "t3", 1, 2, [1]⟩]

/-! ## Claim C6 -/
/-- A batch containing a well-formed id and a malformed id without an
underscore. -/
def malformedBatch : List (List RemovalRecord) := [[⟨"seg_2", "a"⟩, ⟨"x", "b"⟩]]

/-- Witness inputs for the amended C6. -/
def sortableBatch : List (List RemovalRecord) := [[⟨"seg_2", "keep"⟩], [⟨"seg_1", "drop"⟩]]

def unsortableBatch : List (List RemovalRecord) := [[⟨"a_b", "r"⟩, ⟨"seg_1", "s"⟩]]

/-! ## Timestamp Remapper (`run_postprocessing`)

Data model for the conceptual-merge output: a ConceptClip as produced by
Pass A / Pass B of the CrewAI stage. -/
structure ConceptClip where
  merged_text : String
  start : Int
  end_ : Int
  big_segments_used : List String
  vid_title : String
  reasoning : String
deriving Repr, DecidableEq

/-- One entry of `source_segment_timestamps`: either the `{start, end}` pair
or the sentinel string. -/
inductive TimestampEntry where
  | stamps (start stop : Int)
  | missing (sentinel : String)
deriving Repr, DecidableEq

/-- A ConceptClip copy (`segment.copy()`) with the two appended keys. -/
structure MappedConceptClip extends ConceptClip where
  mapped_mini_segment_ranges : List String
  source_segment_timestamps : List TimestampEntry
deriving Repr, DecidableEq

/-- The timestamp lookup map built by `run_postprocessing`:

    segment_timestamp_map = {}
    for seg in mapping_time_data:
        seg_id = seg.get("id")
        if seg_id:
            segment_timestamp_map[seg_id] = {"start": seg.get("start"), "end": seg.get("end")}

Falsy (empty) ids are skipped; on duplicate ids the last assignment wins,
which is the first match in the reversed list. -/
def segment_timestamp_map (mapping_time_data : List BigSegment) (key : String) :
    Option (Int × Int) :=
  (((mapping_time_data.filter (fun s => s.id != "")).reverse).find? (fun s => s.id == key)).map
    (fun s => (s.start, s.end_))

/-- The per-clip mapping loop of `run_postprocessing`: one
`mapped_mini_segment_ranges` entry and one `source_segment_timestamps` entry
per `big_segments_used` element, in order, with `dict.get` sentinels on
miss.  `mapping_data` is the loaded `2a-merged_input_mapping.json` dict. -/
def run_postprocessing_map (final_results : List ConceptClip)
    (mapping_data : String → Option String) (mapping_time_data : List BigSegment) :
    List MappedConceptClip :=
  final_results.map (fun segment =>
    { toConceptClip := segment
    , mapped_mini_segment_ranges :=
        segment.big_segments_used.map (fun big_id =>
          (mapping_data big_id).getD "UNKNOWN_RANGE")
    , source_segment_timestamps :=
        segment.big_segments_used.map (fun big_id =>
          match segment_timestamp_map mapping_time_data big_id with
          | some (s, e) => TimestampEntry.stamps s e
          | none => TimestampEntry.missing "UNKNOWN_TIMESTAMP") })

/-- Witness inputs for C7. -/
def clipW : ConceptClip := ⟨"some text", 0, 5, ["seg_1", "seg_9"], "a title", "because"⟩

def mappingW : String → Option String := fun k => if k = "seg_1" then some "0-4" else none

def segsTimeW : List BigSegment := [⟨"seg_1", "t", 0, 4, [0, 1]⟩]

/-! ## Conceptual Merge stage (`run_crewai_pipeline`)

The stage is modelled by its observable outcome: which artifacts are
written (`4-conceptual_merges.json` and `5-final_results.json`) and the
returned boolean.  The two oracle passes are abstracted as the parse result
of `run_task_and_clean` (`none` = task failure or unparseable output, in
which case no artifact is written; `some l` = the parsed list, which
`run_task_and_clean` writes before returning). -/
structure CrewOutcome where
  merged_artifact : Option (List ConceptClip)
  final_artifact : Option (List ConceptClip)
  success : Bool
deriving Repr, DecidableEq

/-- Function `run_crewai_pipeline` of the script pipeline
(`Agent_snippets_generation.py`): an empty Pass A result writes the final
artifact as `[]` and reports success. -/
def run_crewai_pipeline_script (input_segments : Option (List BigSegment))
    (passA passB : Option (List ConceptClip)) : CrewOutcome :=
  match input_segments with
  | none => ⟨none, none, false⟩
  | some segs =>
    if segs = [] then ⟨some [], some [], true⟩
    else
      match passA with
      | none => ⟨none, none, false⟩
      | some [] => ⟨some [], some [], true⟩
      | some (c :: cs) =>
        match passB with
        | none => ⟨some (c :: cs), none, true⟩
        | some fin => ⟨some (c :: cs), some fin, true⟩

/-- Function `run_crewai_pipeline` of the service pipeline (`agent_service.py`):
`if not merged_data: return False` treats an empty Pass A result as a
failure and writes no final artifact (while missing-or-empty input is
skip-success, writing only the final artifact). -/
def run_crewai_pipeline_service (input_segments : Option (List BigSegment))
    (passA passB : Option (List ConceptClip)) : CrewOutcome :=
  match input_segments with
  | none => ⟨none, some [], true⟩
  | some [] => ⟨none, some [], true⟩
  | some (_ :: _) =>
    match passA with
    | none => ⟨none, none, false⟩
    | some [] => ⟨some [], none, false⟩
    | some (c :: cs) =>
      match passB with
      | none => ⟨some (c :: cs), none, true⟩
      | some fin => ⟨some (c :: cs), some fin, true⟩

/-- A concrete nonempty cleansed-segment input. -/
def segB : BigSegment := ⟨"seg_1", "text", 0, 1, [0]⟩

/-! ## Oracle Client (`get_llm_response_content`)

The oracle is abstracted per attempt number (1-based) as
`Nat → Except String LLMResponse`: `.error` models a raised exception,
`.ok` a returned response object. -/
/-- The heterogeneous response shapes `get_llm_response_content`
distinguishes: an object with a `content` attribute, a plain string, or
anything else (normalized via `str(response)`). -/
inductive LLMResponse where
  | withContent (content : String)
  | plainString (s : String)
  | other (repr : String)
deriving Repr, DecidableEq

/-- Normalization `hasattr(response, 'content') / isinstance(response, str) / str(response)`. -/
def extract_content : LLMResponse → String
  | .withContent c => c
  | .plainString s => s
  | .other r => r

/-- The script pipeline's `get_llm_response_content`: a single `llm.invoke`
in a try/except — no retry of any kind. -/
def script_get_llm_response_content (oracle : Nat → Except String LLMResponse) : Option String :=
  match oracle 1 with
  | .ok r => some (extract_content r)
  | .error _ => none

/-- tenacity `wait_exponential(multiplier=2, min=10, max=120)`: the sleep
after the n-th failed attempt is `max(10, min(2 * 2^(n-1), 120))`. -/
def tenacity_delay (n : Nat) : Nat := max 10 (min (2 * 2 ^ (n - 1)) 120)

/-- The tenacity retry loop of `AgentService._call_llm_with_retry`
(`stop_after_attempt(10)`, every exception retryable): current attempt
number and remaining retries, returning the final outcome and the sequence
of sleeps performed. -/
def retry_go (oracle : Nat → Except String LLMResponse) :
    Nat → Nat → Except String LLMResponse × List Nat
  | attempt, 0 => (oracle attempt, [])
  | attempt, remaining + 1 =>
    match oracle attempt with
    | .ok r => (.ok r, [])
    | .error _ =>
      ((retry_go oracle (attempt + 1) remaining).1,
       tenacity_delay attempt :: (retry_go oracle (attempt + 1) remaining).2)

/-- Method `AgentService._call_llm_with_retry`: attempts 1 through 10. -/
def call_llm_with_retry (oracle : Nat → Except String LLMResponse) :
    Except String LLMResponse × List Nat :=
  retry_go oracle 1 9

/-- Method `AgentService.get_llm_response_content`: the retried call in a
try/except, returning `None` after exhaustion (tenacity re-raises a
`RetryError`, caught by the outer handler). -/
def service_get_llm_response_content (oracle : Nat → Except String LLMResponse) :
    Option String :=
  match (call_llm_with_retry oracle).1 with
  | .ok r => some (extract_content r)
  | .error _ => none

/-! ## Claim C9 -/
/-- An oracle that fails on the first attempt and succeeds afterwards. -/
def oracleFailOnce : Nat → Except String LLMResponse :=
  fun n => if n = 1 then .error "transient failure" else .ok (.plainString "ok")

/-- An oracle that always fails. -/
def oracleAllFail : Nat → Except String LLMResponse := fun _ => .error "down"

/-! ## Lemmas and claim theorems -/

/-! ## Auxiliary lemmas for the Segment Merger -/
lemma pyJoin_cons_ne (sep a : String) {l : List String} (h : l ≠ []) :
    pyJoin sep (a :: l) = a ++ sep ++ pyJoin sep l := by
  cases l with
  | nil => exact absurd rfl h
  | cons y ys => rfl

lemma pyJoin_append (sep : String) {l1 l2 : List String} (h1 : l1 ≠ []) (h2 : l2 ≠ []) :
    pyJoin sep (l1 ++ l2) = pyJoin sep l1 ++ sep ++ pyJoin sep l2 := by
  induction l1 with
  | nil => exact absurd rfl h1
  | cons x xs ih =>
    cases xs with
    | nil =>
      simpa using pyJoin_cons_ne sep x h2
    | cons y ys =>
      have hne : (y :: ys) ++ l2 ≠ [] := by simp
      calc pyJoin sep ((x :: y :: ys) ++ l2)
          = x ++ sep ++ pyJoin sep ((y :: ys) ++ l2) := by
            rw [List.cons_append, pyJoin_cons_ne sep x hne]
        _ = x ++ sep ++ (pyJoin sep (y :: ys) ++ sep ++ pyJoin sep l2) := by
            rw [ih (by simp)]
        _ = (x ++ sep ++ pyJoin sep (y :: ys)) ++ sep ++ pyJoin sep l2 := by
            simp only [String.append_assoc]
        _ = pyJoin sep (x :: y :: ys) ++ sep ++ pyJoin sep l2 := by
            rw [pyJoin_cons_ne sep x (by simp)]

/-- When the MiniUnit list carries positional ids (as `run_preprocessing`
assigns them), the ids of a slice form the corresponding integer range. -/
lemma chunk_map_ids (ms : List MiniUnit)
    (hid : ∀ (i : Nat) (h : i < ms.length), (ms[i]).mini_seg_id = i)
    (c k : Nat) (hk : c + k ≤ ms.length) :
    ((ms.drop c).take k).map MiniUnit.mini_seg_id = List.range' c k := by
  apply List.ext_getElem
  · simp [List.length_take, List.length_drop, List.length_range']
    omega
  · intro n h₁ h₂
    simp only [List.getElem_map, List.getElem_take, List.getElem_drop, List.getElem_range',
      one_mul]
    have hn : c + n < ms.length := by
      simp [List.length_take, List.length_drop] at h₁
      omega
    exact hid (c + n) hn

lemma mem_of_getLast?_eq {l : List Nat} {m : Nat} (h : l.getLast? = some m) : m ∈ l := by
  rcases List.getLast?_eq_some_iff.mp h with ⟨ys, rfl⟩
  simp

lemma sorted_lt_le_getLast : ∀ {l : List Nat} {m : Nat},
    l.Sorted (· < ·) → l.getLast? = some m → ∀ b ∈ l, b ≤ m := by
  intro l
  induction l with
  | nil => intro m _ h b hb; simp at hb
  | cons a rest ih =>
    intro m hs hlast b hb
    rcases List.sorted_cons.mp hs with ⟨ha, hrest⟩
    cases rest with
    | nil =>
      simp at hlast hb
      omega
    | cons r rs =>
      rw [List.getLast?_cons_cons] at hlast
      rcases List.mem_cons.mp hb with rfl | hbr
      · have hm : m ∈ r :: rs := mem_of_getLast?_eq hlast
        exact le_of_lt (ha m hm)
      · exact ih hrest hlast b hbr

/-- Core invariant of the Segment Merger loop: when the remaining breakpoints
are strictly sorted, all at or past the cursor, all in range, and end exactly
at the last MiniUnit id, the emitted segments cover `range' cursor (len - cursor)`
exactly, reproduce the joined text of the remaining MiniUnits, and each use a
nonempty contiguous id range. -/
lemma execute_merge_plan_go_spec (ms : List MiniUnit)
    (hid : ∀ (i : Nat) (h : i < ms.length), (ms[i]).mini_seg_id = i) :
    ∀ (bps : List Nat) (cursor counter : Nat),
      bps.Sorted (· < ·) →
      (∀ b ∈ bps, cursor ≤ b) →
      (∀ b ∈ bps, b < ms.length) →
      bps.getLast? = some (ms.length - 1) →
      ((execute_merge_plan_go ms bps cursor counter).flatMap BigSegment.mini_segments_used
          = List.range' cursor (ms.length - cursor))
        ∧ (pyJoin " " ((execute_merge_plan_go ms bps cursor counter).map BigSegment.text)
            = pyJoin " " ((ms.drop cursor).map MiniUnit.text))
        ∧ (∀ seg ∈ execute_merge_plan_go ms bps cursor counter,
            ∃ a n, 0 < n ∧ seg.mini_segments_used = List.range' a n) := by
  intro bps
  induction bps with
  | nil => intro cursor counter _ _ _ hlast; simp at hlast
  | cons bp rest ih =>
    intro cursor counter hsort hcur hlt hlast
    have hbp_lt : bp < ms.length := hlt bp (List.mem_cons_self bp rest)
    have hcb : cursor ≤ bp := hcur bp (List.mem_cons_self bp rest)
    have hmin : min (bp + 1) ms.length = bp + 1 := by omega
    have hchunk_len : (mergeChunk ms cursor (bp + 1)).length = bp + 1 - cursor := by
      simp only [mergeChunk, List.length_take, List.length_drop]
      omega
    have hchunk_ne : mergeChunk ms cursor (bp + 1) ≠ [] := by
      apply List.ne_nil_of_length_pos
      omega
    have hchunk_ids : (mergeChunk ms cursor (bp + 1)).map MiniUnit.mini_seg_id
        = List.range' cursor (bp + 1 - cursor) := by
      simpa [mergeChunk] using chunk_map_ids ms hid cursor (bp + 1 - cursor) (by omega)
    rcases List.sorted_cons.mp hsort with ⟨hbp_rest, hsort_rest⟩
    simp only [execute_merge_plan_go, hmin, if_neg hchunk_ne]
    cases rest with
    | nil =>
      have hbp_eq : bp = ms.length - 1 := by
        simpa using hlast
      have hchunk_all : mergeChunk ms cursor (bp + 1) = ms.drop cursor := by
        apply List.take_of_length_le
        simp only [List.length_drop]
        omega
      refine ⟨?_, ?_, ?_⟩
      · simp only [execute_merge_plan_go, List.flatMap_cons, List.flatMap_nil,
          List.append_nil, mkBigSegment, hchunk_ids]
        congr 1
        omega
      · simp only [execute_merge_plan_go, List.map_cons, List.map_nil, mkBigSegment,
          hchunk_all]
        rfl
      · intro seg hseg
        simp only [execute_merge_plan_go, List.mem_cons, List.not_mem_nil, or_false] at hseg
        subst hseg
        exact ⟨cursor, bp + 1 - cursor, by omega, by simp [mkBigSegment, hchunk_ids]⟩
    | cons r rs =>
      rw [List.getLast?_cons_cons] at hlast
      have hlast_mem : ms.length - 1 ∈ r :: rs := mem_of_getLast?_eq hlast
      have hbp_small : bp < ms.length - 1 := hbp_rest _ hlast_mem
      have hcur' : ∀ b ∈ r :: rs, bp + 1 ≤ b := fun b hb => hbp_rest b hb
      have hlt' : ∀ b ∈ r :: rs, b < ms.length := fun b hb => hlt b (List.mem_cons_of_mem bp hb)
      obtain ⟨ih1, ih2, ih3⟩ := ih (bp + 1) (counter + 1) hsort_rest hcur' hlt' hlast
      have hout_ne : execute_merge_plan_go ms (r :: rs) (bp + 1) (counter + 1) ≠ [] := by
        intro hnil
        rw [hnil] at ih1
        simp only [List.flatMap_nil] at ih1
        have := List.range'_eq_nil.mp ih1.symm
        omega
      have hsplit : ms.drop cursor = mergeChunk ms cursor (bp + 1) ++ ms.drop (bp + 1) := by
        have h1 := List.take_append_drop (bp + 1 - cursor) (ms.drop cursor)
        rw [List.drop_drop] at h1
        have h2 : cursor + (bp + 1 - cursor) = bp + 1 := by omega
        rw [h2] at h1
        simpa [mergeChunk] using h1.symm
      refine ⟨?_, ?_, ?_⟩
      · simp only [List.flatMap_cons, mkBigSegment, hchunk_ids, ih1]
        have hr := List.range'_append cursor (bp + 1 - cursor) (ms.length - (bp + 1)) 1
        simp only [one_mul] at hr
        have h2 : cursor + (bp + 1 - cursor) = bp + 1 := by omega
        rw [h2] at hr
        have h3 : ms.length - (bp + 1) + (bp + 1 - cursor) = ms.length - cursor := by omega
        rw [h3] at hr
        exact hr
      · have hmapne : (execute_merge_plan_go ms (r :: rs) (bp + 1) (counter + 1)).map
            BigSegment.text ≠ [] := by
          simpa [List.map_eq_nil_iff] using hout_ne
        have hchunk_texts_ne : (mergeChunk ms cursor (bp + 1)).map MiniUnit.text ≠ [] := by
          simpa [List.map_eq_nil_iff] using hchunk_ne
        have hdrop_ne : (ms.drop (bp + 1)).map MiniUnit.text ≠ [] := by
          apply List.ne_nil_of_length_pos
          simp only [List.length_map, List.length_drop]
          omega
        rw [List.map_cons, pyJoin_cons_ne " " _ hmapne, ih2, hsplit, List.map_append,
          pyJoin_append " " hchunk_texts_ne hdrop_ne]
        rfl
      · intro seg hseg
        rcases List.mem_cons.mp hseg with rfl | hseg'
        · exact ⟨cursor, bp + 1 - cursor, by omega, by simp [mkBigSegment, hchunk_ids]⟩
        · exact ih3 seg hseg'

/-- Claim C2: for every MiniUnit list with positional ids and every breakpoint
list that is sorted ascending, deduplicated (strictly sorted), and whose
maximum (= last) element equals `total_units - 1`, the Segment Merger's
output partitions the id space exactly — the concatenation of all
`mini_segments_used` is `range(total_units)`, the lists are pairwise
disjoint, each is a nonempty contiguous range, and the texts joined with
single spaces reproduce the joined input texts. -/
theorem claim_C2_merger_partition (ms : List MiniUnit) (bps : List Nat)
    (hid : ∀ (i : Nat) (h : i < ms.length), (ms[i]).mini_seg_id = i)
    (hsort : bps.Sorted (· < ·))
    (hmax : bps.getLast? = some (ms.length - 1))
    (hne : ms ≠ []) :
    (execute_merge_plan ms bps).flatMap BigSegment.mini_segments_used = List.range ms.length
    ∧ List.Pairwise (fun s t => List.Disjoint s.mini_segments_used t.mini_segments_used)
        (execute_merge_plan ms bps)
    ∧ (∀ seg ∈ execute_merge_plan ms bps,
        ∃ a n, 0 < n ∧ seg.mini_segments_used = List.range' a n)
    ∧ pyJoin " " ((execute_merge_plan ms bps).map BigSegment.text)
        = pyJoin " " (ms.map MiniUnit.text) := by
  have hlen : 0 < ms.length := List.length_pos.mpr hne
  have hlt : ∀ b ∈ bps, b < ms.length := by
    intro b hb
    have := sorted_lt_le_getLast hsort hmax b hb
    omega
  have hcur : ∀ b ∈ bps, 0 ≤ b := fun b _ => Nat.zero_le b
  obtain ⟨h1, h2, h3⟩ :=
    execute_merge_plan_go_spec ms hid bps 0 1 hsort hcur hlt hmax
  have hflat : (execute_merge_plan ms bps).flatMap BigSegment.mini_segments_used
      = List.range ms.length := by
    rw [execute_merge_plan, List.range_eq_range']
    simpa using h1
  refine ⟨hflat, ?_, ?_, ?_⟩
  · have hnodup : ((execute_merge_plan ms bps).map BigSegment.mini_segments_used).flatten.Nodup := by
      rw [← List.flatMap_def, hflat]
      exact List.nodup_range ms.length
    have := (List.nodup_flatten.mp hnodup).2
    exact List.pairwise_map.mp this
  · intro seg hseg
    exact h3 seg hseg
  · simpa [execute_merge_plan] using h2

/-- Witness for C2 at a concrete input: two MiniUnits, breakpoints [0, 1]. -/
theorem claim_C2_witness :
    (execute_merge_plan ms2 [0, 1]).flatMap BigSegment.mini_segments_used = List.range ms2.length
    ∧ List.Pairwise (fun s t => List.Disjoint s.mini_segments_used t.mini_segments_used)
        (execute_merge_plan ms2 [0, 1])
    ∧ (∀ seg ∈ execute_merge_plan ms2 [0, 1],
        ∃ a n, 0 < n ∧ seg.mini_segments_used = List.range' a n)
    ∧ pyJoin " " ((execute_merge_plan ms2 [0, 1]).map BigSegment.text)
        = pyJoin " " (ms2.map MiniUnit.text) :=
  claim_C2_merger_partition ms2 [0, 1] (by decide) (by decide) (by decide) (by decide)

/-- The ids emitted by the Segment Merger loop are consecutive from the
initial counter, in emission order, regardless of the breakpoint list. -/
lemma execute_merge_plan_go_ids (ms : List MiniUnit) :
    ∀ (bps : List Nat) (cursor counter : Nat),
      (execute_merge_plan_go ms bps cursor counter).map BigSegment.id
        = (List.range (execute_merge_plan_go ms bps cursor counter).length).map
            (fun i => "seg_" ++ toString (counter + i)) := by
  intro bps
  induction bps with
  | nil => intro cursor counter; simp [execute_merge_plan_go]
  | cons bp rest ih =>
    intro cursor counter
    by_cases hc : mergeChunk ms cursor (min (bp + 1) ms.length) = []
    · simp only [execute_merge_plan_go, if_pos hc]
      exact ih _ _
    · simp only [execute_merge_plan_go, if_neg hc, List.map_cons, List.length_cons]
      rw [List.range_succ_eq_map]
      simp only [List.map_cons, List.map_map]
      refine congr_arg₂ List.cons ?_ ?_
      · simp [mkBigSegment]
      · rw [ih (min (bp + 1) ms.length) (counter + 1)]
        apply List.map_congr_left
        intro a ha
        simp only [Function.comp_apply]
        have h : counter + 1 + a = counter + Nat.succ a := by omega
        rw [h]

/-- Claim C3: the Segment Merger assigns ids seg_1, seg_2, ... consecutively
in emission order with no gaps, for every input; and in the concrete §8
scenario (12 MiniUnits, breakpoints [4, 11]) it emits exactly seg_1 covering
mini-ids 0–4 and seg_2 covering mini-ids 5–11. -/
theorem claim_C3_sequential_ids :
    (∀ (ms : List MiniUnit) (bps : List Nat),
      (execute_merge_plan ms bps).map BigSegment.id
        = (List.range (execute_merge_plan ms bps).length).map
            (fun i => "seg_" ++ toString (1 + i)))
    ∧ (execute_merge_plan sample12 [4, 11]).map BigSegment.id = ["seg_1", "seg_2"]
    ∧ (execute_merge_plan sample12 [4, 11]).map BigSegment.mini_segments_used
        = [[0, 1, 2, 3, 4], [5, 6, 7, 8, 9, 10, 11]] :=
  ⟨fun ms bps => by simpa [execute_merge_plan] using execute_merge_plan_go_ids ms bps 0 1,
   by decide, by decide⟩

/-! ## Lemmas about decimal digit strings -/
lemma natDigitsAux_digits : ∀ (fuel n : Nat), n < fuel →
    (natDigitsAux fuel n).all Char.isDigit = true ∧ natDigitsAux fuel n ≠ [] := by
  intro fuel
  induction fuel with
  | zero => intro n h; omega
  | succ f ih =>
    intro n hn
    have hdigit : ∀ m, m < 10 → (Nat.digitChar m).isDigit = true := by decide
    by_cases h : n < 10
    · simp [natDigitsAux, if_pos h, hdigit n h]
    · have h1 : n / 10 < n := Nat.div_lt_self (by omega) (by omega)
      have hlt : n / 10 < f := by omega
      obtain ⟨ha, _⟩ := ih (n / 10) hlt
      simp only [natDigitsAux, if_neg h]
      constructor
      · rw [List.all_append]
        simp [ha, hdigit (n % 10) (Nat.mod_lt n (by omega))]
      · simp

lemma natDigits_digits (n : Nat) :
    (natDigits n).all Char.isDigit = true ∧ natDigits n ≠ [] :=
  natDigitsAux_digits (n + 1) n (by omega)

lemma str_isdigit_pyStrOfInt (n : Int) : str_isdigit (pyStrOfInt n) = true ↔ 0 ≤ n := by
  by_cases h : n < 0
  · rw [pyStrOfInt, if_pos h]
    constructor
    · intro habs
      exfalso
      have h2 : ('-' :: natDigits n.natAbs).all Char.isDigit = true := by
        simpa [str_isdigit] using habs
      simp [List.all_cons] at h2
    · intro hn; omega
  · rw [pyStrOfInt, if_neg h]
    obtain ⟨h1, h2⟩ := natDigits_digits n.toNat
    constructor
    · intro _; omega
    · intro _
      simp only [str_isdigit, Bool.and_eq_true, Bool.not_eq_true']
      exact ⟨by simpa [List.isEmpty_iff] using h2, h1⟩

/-! ## Claim C10 -/
/-- Claim C10 (confirmed): the segmentation parser keeps exactly the
non-negative integers and the pure-digit strings (converted to their decimal
value); negative integers, booleans, floats and all other JSON values are
silently dropped, and a failed decode yields the empty list. -/
theorem claim_C10_segmentation_filter (l : List JValue) :
    call_llm_for_segmentation_parse (some l) = l.filterMap segmentation_keep_spec
    ∧ (∀ x ∈ call_llm_for_segmentation_parse (some l), 0 ≤ x)
    ∧ call_llm_for_segmentation_parse none = [] := by
  have hcongr : ∀ x ∈ l, seg_keep_element x = segmentation_keep_spec x := by
    intro x _
    cases x with
    | jint n =>
      simp only [seg_keep_element, segmentation_keep_spec]
      by_cases hn : 0 ≤ n
      · rw [if_pos (str_isdigit_pyStrOfInt n |>.mpr hn), if_pos hn]
      · rw [if_neg (fun hd => hn ((str_isdigit_pyStrOfInt n).mp hd)), if_neg hn]
    | jbool b =>
      cases b <;> simp [seg_keep_element, segmentation_keep_spec, pyStrOfBool, str_isdigit]
    | jstr s => rfl
    | jnull => rfl
    | jfloat q => rfl
    | jarr elems => rfl
    | jobj fields => rfl
  have heq : call_llm_for_segmentation_parse (some l) = l.filterMap segmentation_keep_spec :=
    List.filterMap_congr hcongr
  refine ⟨heq, ?_, rfl⟩
  intro x hx
  rw [heq] at hx
  rcases List.mem_filterMap.mp hx with ⟨a, _, ha⟩
  cases a with
  | jint n =>
    simp only [segmentation_keep_spec] at ha
    by_cases hn : 0 ≤ n
    · rw [if_pos hn] at ha
      have hnx : n = x := by simpa using ha
      omega
    · rw [if_neg hn] at ha; exact absurd ha (by simp)
  | jstr s =>
    simp only [segmentation_keep_spec] at ha
    by_cases hs : str_isdigit s = true
    · rw [if_pos hs] at ha
      have : x = ((digitsVal s.toList : Nat) : Int) := by
        simpa using ha.symm
      rw [this]
      exact Int.ofNat_nonneg _
    · rw [if_neg hs] at ha; exact absurd ha (by simp)
  | jnull => exact absurd ha (by simp [segmentation_keep_spec])
  | jbool b => exact absurd ha (by simp [segmentation_keep_spec])
  | jfloat q => exact absurd ha (by simp [segmentation_keep_spec])
  | jarr elems => exact absurd ha (by simp [segmentation_keep_spec])
  | jobj fields => exact absurd ha (by simp [segmentation_keep_spec])

/-- Witness for C10 at a concrete decoded array. -/
theorem claim_C10_witness :
    call_llm_for_segmentation_parse (some jlist0) = jlist0.filterMap segmentation_keep_spec
    ∧ (0 : Int) ≤ 3 :=
  ⟨(claim_C10_segmentation_filter jlist0).1,
   (claim_C10_segmentation_filter jlist0).2.1 3 (by decide)⟩

/-! ## Lemmas about the Segmentation Planner -/
lemma sortedDedupNat_sorted (l : List Nat) : (sortedDedupNat l).Sorted (· < ·) := by
  have hs : (sortedDedupNat l).Sorted (· ≤ ·) := List.sorted_insertionSort _ _
  have hn : (sortedDedupNat l).Nodup :=
    ((List.perm_insertionSort _ _).nodup_iff).mpr (List.nodup_dedup l)
  exact (List.Pairwise.and hs hn).imp (fun h => lt_of_le_of_ne h.1 h.2)

lemma sortedDedupNat_mem (l : List Nat) (a : Nat) : a ∈ sortedDedupNat l ↔ a ∈ l :=
  (List.perm_insertionSort _ _).mem_iff.trans List.mem_dedup

lemma planner_append_last_none {bps : List Nat} {t : Nat} (h : bps.getLast? = none) :
    planner_append_last bps t = [t] := by
  rw [planner_append_last, h]

lemma planner_append_last_some {bps : List Nat} {m t : Nat} (h : bps.getLast? = some m) :
    planner_append_last bps t = if m < t then bps ++ [t] else bps := by
  rw [planner_append_last, h]

/-! ## Claim C1 -/
/-- Counterexample to C1 as stated: a single MiniUnit with an out-of-range
oracle response `[5]` yields the plan `[5]`, whose maximum element is 5,
not `total_units - 1 = 0`. -/
theorem claim_C1_counterexample :
    get_batched_segmentation_plan (fun _ => [5]) [miniA] 1 = [5]
    ∧ (5 : Nat) ≠ [miniA].length - 1 := by
  constructor
  · decide
  · decide

/-- Claim C1 as amended: for every non-empty MiniUnit list, every positive
batch count and every family of per-batch oracle responses, the plan is
strictly sorted (ascending, duplicate-free) and its maximum (= last) element
is at least `total_units - 1`; it equals `total_units - 1` whenever every
oracle-returned breakpoint is in range (at most `total_units - 1`). -/
theorem claim_C1_plan_sorted_max (oracle : Nat → List Nat) (ms : List MiniUnit) (nb : Nat)
    (hne : ms ≠ []) (hnb : 0 < nb) :
    (get_batched_segmentation_plan oracle ms nb).Sorted (· < ·)
    ∧ ∃ m, (get_batched_segmentation_plan oracle ms nb).getLast? = some m
        ∧ (∀ x ∈ get_batched_segmentation_plan oracle ms nb, x ≤ m)
        ∧ ms.length - 1 ≤ m
        ∧ ((∀ i, ∀ b ∈ oracle i, b ≤ ms.length - 1) → m = ms.length - 1) := by
  have hlen : 0 < ms.length := List.length_pos.mpr hne
  have hlen0 : ¬ ms.length = 0 := by omega
  rw [get_batched_segmentation_plan, if_neg hlen0]
  set g := planner_gather oracle ((ms.length + nb - 1) / nb) ms.length nb with hg
  have hsorted : (sortedDedupNat g).Sorted (· < ·) := sortedDedupNat_sorted g
  cases hlast : (sortedDedupNat g).getLast? with
  | none =>
    rw [planner_append_last_none hlast]
    refine ⟨List.sorted_singleton _, ms.length - 1, ?_, ?_, le_refl _, fun _ => rfl⟩
    · simp
    · intro x hx
      simp at hx
      omega
  | some m0 =>
    rw [planner_append_last_some hlast]
    have hall : ∀ x ∈ sortedDedupNat g, x ≤ m0 := sorted_lt_le_getLast hsorted hlast
    by_cases hm : m0 < ms.length - 1
    · rw [if_pos hm]
      refine ⟨?_, ms.length - 1, List.getLast?_concat _, ?_, le_refl _, fun _ => rfl⟩
      · refine List.pairwise_append.mpr ⟨hsorted, List.sorted_singleton _, ?_⟩
        intro a ha b hb
        simp at hb
        have := hall a ha
        omega
      · intro x hx
        rcases List.mem_append.mp hx with hx' | hx'
        · have := hall x hx'
          omega
        · simp at hx'
          omega
    · rw [if_neg hm]
      refine ⟨hsorted, m0, hlast, hall, by omega, ?_⟩
      intro hb
      have hmem : m0 ∈ g := (sortedDedupNat_mem g m0).mp (mem_of_getLast?_eq hlast)
      rw [hg, planner_gather] at hmem
      rcases List.mem_flatMap.mp hmem with ⟨i, _, hio⟩
      have := hb i m0 hio
      omega

/-- Witness for the amended C1: two MiniUnits, one batch, oracle returns [0]. -/
theorem claim_C1_witness :
    (get_batched_segmentation_plan (fun _ => [0]) ms2 1).Sorted (· < ·)
    ∧ ∃ m, (get_batched_segmentation_plan (fun _ => [0]) ms2 1).getLast? = some m
        ∧ (∀ x ∈ get_batched_segmentation_plan (fun _ => [0]) ms2 1, x ≤ m)
        ∧ ms2.length - 1 ≤ m
        ∧ ((∀ i, ∀ b ∈ (fun _ => [0] : Nat → List Nat) i, b ≤ ms2.length - 1) → m = ms2.length - 1) :=
  claim_C1_plan_sorted_max (fun _ => [0]) ms2 1 (by decide) (by decide)

/-! ## Lemmas about the cleansing merge -/
/-- An id is in the first-wins accumulation exactly when it was flagged and
not already seen. -/
lemma dedupFirstWins_mem_ids : ∀ (items : List RemovalRecord) (seen : List String) (a : String),
    a ∈ (dedupFirstWins items seen).map RemovalRecord.id
      ↔ a ∈ items.map RemovalRecord.id ∧ a ∉ seen := by
  intro items
  induction items with
  | nil => intro seen a; simp [dedupFirstWins]
  | cons x rest ih =>
    intro seen a
    by_cases hx : x.id ∈ seen
    · rw [dedupFirstWins, if_pos hx, ih]
      simp only [List.map_cons, List.mem_cons]
      constructor
      · rintro ⟨ha, hs⟩
        exact ⟨Or.inr ha, hs⟩
      · rintro ⟨ha | ha, hs⟩
        · exact absurd (ha ▸ hx) hs
        · exact ⟨ha, hs⟩
    · rw [dedupFirstWins, if_neg hx]
      simp only [List.map_cons, List.mem_cons]
      constructor
      · rintro (rfl | hmem)
        · exact ⟨Or.inl rfl, hx⟩
        · obtain ⟨ha, hs⟩ := (ih (x.id :: seen) a).mp hmem
          exact ⟨Or.inr ha, fun h => hs (List.mem_cons_of_mem _ h)⟩
      · rintro ⟨rfl | ha, hs⟩
        · exact Or.inl rfl
        · by_cases hax : a = x.id
          · exact Or.inl hax
          · exact Or.inr ((ih (x.id :: seen) a).mpr
              ⟨ha, fun h => (List.mem_cons.mp h).elim hax hs⟩)

/-- The accumulated ids are duplicate-free. -/
lemma dedupFirstWins_nodup : ∀ (items : List RemovalRecord) (seen : List String),
    ((dedupFirstWins items seen).map RemovalRecord.id).Nodup := by
  intro items
  induction items with
  | nil => intro seen; simp [dedupFirstWins]
  | cons x rest ih =>
    intro seen
    by_cases hx : x.id ∈ seen
    · rw [dedupFirstWins, if_pos hx]
      exact ih seen
    · rw [dedupFirstWins, if_neg hx]
      rw [List.map_cons]
      refine List.nodup_cons.mpr ⟨?_, ih (x.id :: seen)⟩
      intro hmem
      obtain ⟨_, hs⟩ := (dedupFirstWins_mem_ids rest (x.id :: seen) x.id).mp hmem
      exact hs (List.mem_cons_self _ _)

/-- Every accumulated record is the first occurrence of its id in the
concatenated input. -/
lemma dedupFirstWins_find : ∀ (items : List RemovalRecord) (seen : List String),
    ∀ r ∈ dedupFirstWins items seen,
      r.id ∉ seen ∧ items.find? (fun x => x.id == r.id) = some r := by
  intro items
  induction items with
  | nil => intro seen r hr; simp [dedupFirstWins] at hr
  | cons x rest ih =>
    intro seen r hr
    by_cases hx : x.id ∈ seen
    · rw [dedupFirstWins, if_pos hx] at hr
      obtain ⟨hnot, hfind⟩ := ih seen r hr
      refine ⟨hnot, ?_⟩
      rw [List.find?_cons_of_neg]
      · exact hfind
      · intro hbeq
        have : x.id = r.id := by simpa using hbeq
        exact hnot (this ▸ hx)
    · rw [dedupFirstWins, if_neg hx] at hr
      rcases List.mem_cons.mp hr with rfl | hr'
      · exact ⟨hx, List.find?_cons_of_pos _ (beq_self_eq_true r.id)⟩
      · obtain ⟨hnot, hfind⟩ := ih (x.id :: seen) r hr'
        have hne : x.id ≠ r.id := fun h => hnot (h ▸ List.mem_cons_self _ _)
        refine ⟨fun hs => hnot (List.mem_cons_of_mem _ hs), ?_⟩
        rw [List.find?_cons_of_neg]
        · exact hfind
        · intro hbeq
          exact hne (by simpa using hbeq)

/-- The guarded sort permutes the list (or leaves it unchanged). -/
lemma sortRemovals_perm (l : List RemovalRecord) : (sortRemovals l).Perm l := by
  rw [sortRemovals]
  split
  · exact List.perm_insertionSort _ _
  · exact List.Perm.refl l

/-- The merged ids are exactly the flagged ids. -/
lemma mem_merge_ids (batches : List (List RemovalRecord)) (a : String) :
    a ∈ (run_batched_llm_cleansing_merge batches).map RemovalRecord.id
      ↔ a ∈ batches.flatten.map RemovalRecord.id := by
  have hperm := sortRemovals_perm (dedupFirstWins batches.flatten [])
  constructor
  · intro h
    have h2 := (hperm.map RemovalRecord.id).mem_iff.mp h
    exact ((dedupFirstWins_mem_ids _ _ _).mp h2).1
  · intro h
    have h2 := (dedupFirstWins_mem_ids batches.flatten [] a).mpr ⟨h, by simp⟩
    exact (hperm.map RemovalRecord.id).mem_iff.mpr h2

/-! ## Claim C4 -/
/-- Claim C4 (confirmed): the merged RemovalRecord list has at most one
record per id; each merged record is exactly the first occurrence of its id
over the batch results in processing order (later duplicates are ignored);
and every flagged id is represented. -/
theorem claim_C4_first_wins_dedup (batches : List (List RemovalRecord)) :
    ((run_batched_llm_cleansing_merge batches).map RemovalRecord.id).Nodup
    ∧ (∀ r ∈ run_batched_llm_cleansing_merge batches,
        batches.flatten.find? (fun x => x.id == r.id) = some r)
    ∧ (∀ r ∈ batches.flatten,
        ∃ rr ∈ run_batched_llm_cleansing_merge batches, rr.id = r.id) := by
  have hperm := sortRemovals_perm (dedupFirstWins batches.flatten [])
  refine ⟨?_, ?_, ?_⟩
  · exact (hperm.map RemovalRecord.id).nodup_iff.mpr (dedupFirstWins_nodup _ _)
  · intro r hr
    have hr' : r ∈ dedupFirstWins batches.flatten [] := hperm.mem_iff.mp hr
    exact (dedupFirstWins_find _ _ r hr').2
  · intro r hr
    have h1 : r.id ∈ (dedupFirstWins batches.flatten []).map RemovalRecord.id :=
      (dedupFirstWins_mem_ids _ _ _).mpr ⟨List.mem_map_of_mem _ hr, by simp⟩
    rcases List.mem_map.mp h1 with ⟨rr, hrr, hid⟩
    exact ⟨rr, hperm.mem_iff.mpr hrr, hid⟩

/-- Witness for C4 at a concrete input. -/
theorem claim_C4_witness :
    ((run_batched_llm_cleansing_merge cleansingBatches).map RemovalRecord.id).Nodup
    ∧ cleansingBatches.flatten.find?
        (fun x => x.id == (⟨"seg_2", "first reason"⟩ : RemovalRecord).id)
        = some ⟨"seg_2", "first reason"⟩
    ∧ ∃ rr ∈ run_batched_llm_cleansing_merge cleansingBatches,
        rr.id = (⟨"seg_1", "other"⟩ : RemovalRecord).id :=
  ⟨(claim_C4_first_wins_dedup cleansingBatches).1,
   (claim_C4_first_wins_dedup cleansingBatches).2.1 ⟨"seg_2", "first reason"⟩ (by decide),
   (claim_C4_first_wins_dedup cleansingBatches).2.2 ⟨"seg_1", "other"⟩ (by decide)⟩

/-- Counterexample to C5 as stated: permuting the batches changes which
reason survives first-wins deduplication, so the final RemovalRecord sets
differ (they are not permutations of each other). -/
theorem claim_C5_counterexample :
    permBatchesA.Perm permBatchesB
    ∧ run_batched_llm_cleansing_merge permBatchesA = [⟨"seg_1", "reason A"⟩]
    ∧ run_batched_llm_cleansing_merge permBatchesB = [⟨"seg_1", "reason B"⟩]
    ∧ ¬ (run_batched_llm_cleansing_merge permBatchesA).Perm
          (run_batched_llm_cleansing_merge permBatchesB) :=
  ⟨by decide, by decide, by decide, by decide⟩

/-- Claim C5 as amended: permuting the batches preserves the merged id set
and therefore the filtered BigSegment list exactly; only the surviving
reasons may differ. -/
theorem claim_C5_permutation_invariance (bs bs' : List (List RemovalRecord))
    (segs : List BigSegment) (hperm : bs.Perm bs') :
    (∀ a : String, a ∈ (run_batched_llm_cleansing_merge bs).map RemovalRecord.id
        ↔ a ∈ (run_batched_llm_cleansing_merge bs').map RemovalRecord.id)
    ∧ filter_and_save_cleansed segs (run_batched_llm_cleansing_merge bs)
        = filter_and_save_cleansed segs (run_batched_llm_cleansing_merge bs') := by
  have hflat : bs.flatten.Perm bs'.flatten := hperm.flatten
  have hids : ∀ a : String, a ∈ (run_batched_llm_cleansing_merge bs).map RemovalRecord.id
      ↔ a ∈ (run_batched_llm_cleansing_merge bs').map RemovalRecord.id := by
    intro a
    rw [mem_merge_ids, mem_merge_ids]
    exact (hflat.map RemovalRecord.id).mem_iff
  have hmemiff : ∀ (l : List RemovalRecord) (s : BigSegment),
      (l.any (fun r => r.id == s.id) = true) ↔ s.id ∈ l.map RemovalRecord.id := by
    intro l s
    rw [List.any_eq_true]
    constructor
    · rintro ⟨r, hr, hbeq⟩
      exact List.mem_map.mpr ⟨r, hr, by simpa using hbeq⟩
    · intro h
      rcases List.mem_map.mp h with ⟨r, hr, hid⟩
      exact ⟨r, hr, by simp [hid]⟩
  refine ⟨hids, ?_⟩
  apply List.filter_congr
  intro s _
  have hany : (run_batched_llm_cleansing_merge bs).any (fun r => r.id == s.id)
      = (run_batched_llm_cleansing_merge bs').any (fun r => r.id == s.id) := by
    rw [Bool.eq_iff_iff, hmemiff, hmemiff]
    exact hids s.id
  rw [hany]

/-- Witness for the amended C5 at a concrete input. -/
theorem claim_C5_witness :
    (∀ a : String, a ∈ (run_batched_llm_cleansing_merge bsW).map RemovalRecord.id
        ↔ a ∈ (run_batched_llm_cleansing_merge bsW2).map RemovalRecord.id)
    ∧ filter_and_save_cleansed segsW (run_batched_llm_cleansing_merge bsW)
        = filter_and_save_cleansed segsW (run_batched_llm_cleansing_merge bsW2) :=
  claim_C5_permutation_invariance bsW bsW2 segsW (by decide)

/-- Counterexample to C6 as stated: the merged list contains the malformed
id "x", yet it is not left in merge order — "x" sorts with key 0 ahead of
seg_2. -/
theorem claim_C6_counterexample :
    run_batched_llm_cleansing_merge malformedBatch = [⟨"x", "b"⟩, ⟨"seg_2", "a"⟩]
    ∧ run_batched_llm_cleansing_merge malformedBatch ≠ [⟨"seg_2", "a"⟩, ⟨"x", "b"⟩] :=
  ⟨by decide, by decide⟩

/-- Claim C6 as amended: after first-wins deduplication the list is sorted
ascending by the key — integer suffix after the first underscore when
present and parseable, 0 for ids without an underscore; if computing any key
fails (an underscore with a non-integer suffix), the sort is abandoned and
the list stays in merge order.  The operation is total (never raises). -/
theorem claim_C6_suffix_sort (batches : List (List RemovalRecord)) :
    ((∀ r ∈ dedupFirstWins batches.flatten [], (removal_sort_key r.id).isSome) →
      (run_batched_llm_cleansing_merge batches).Pairwise
          (fun a b => removalKeyD a ≤ removalKeyD b)
      ∧ (run_batched_llm_cleansing_merge batches).Perm (dedupFirstWins batches.flatten []))
    ∧ ((∃ r ∈ dedupFirstWins batches.flatten [], removal_sort_key r.id = none) →
      run_batched_llm_cleansing_merge batches = dedupFirstWins batches.flatten []) := by
  constructor
  · intro hall
    rw [run_batched_llm_cleansing_merge, sortRemovals,
      if_pos (List.all_eq_true.mpr (fun r hr => by simpa using hall r hr))]
    constructor
    · haveI : IsTotal RemovalRecord (fun a b => removalKeyD a ≤ removalKeyD b) :=
        ⟨fun a b => le_total _ _⟩
      haveI : IsTrans RemovalRecord (fun a b => removalKeyD a ≤ removalKeyD b) :=
        ⟨fun _ _ _ h1 h2 => le_trans h1 h2⟩
      exact List.sorted_insertionSort _ _
    · exact List.perm_insertionSort _ _
  · rintro ⟨r, hr, hnone⟩
    rw [run_batched_llm_cleansing_merge, sortRemovals, if_neg]
    intro hallb
    have := List.all_eq_true.mp hallb r hr
    simp [hnone] at this

/-- Witness for the amended C6: one input where every key computes (sorted
result), one where a key fails (merge order kept). -/
theorem claim_C6_witness :
    ((run_batched_llm_cleansing_merge sortableBatch).Pairwise
        (fun a b => removalKeyD a ≤ removalKeyD b)
      ∧ (run_batched_llm_cleansing_merge sortableBatch).Perm
          (dedupFirstWins sortableBatch.flatten []))
    ∧ run_batched_llm_cleansing_merge unsortableBatch
        = dedupFirstWins unsortableBatch.flatten [] :=
  ⟨(claim_C6_suffix_sort sortableBatch).1 (by decide),
   (claim_C6_suffix_sort unsortableBatch).2 ⟨⟨"a_b", "r"⟩, by decide, by decide⟩⟩

/-- Searching by id returns the element itself when ids are duplicate-free. -/
lemma find?_id_eq_of_nodup : ∀ (l : List BigSegment),
    ((l.map BigSegment.id).Nodup) → ∀ s ∈ l, l.find? (fun t => t.id == s.id) = some s := by
  intro l
  induction l with
  | nil => intro _ s hs; simp at hs
  | cons t rest ih =>
    intro hnodup s hs
    rw [List.map_cons, List.nodup_cons] at hnodup
    rcases List.mem_cons.mp hs with rfl | hs'
    · exact List.find?_cons_of_pos _ (beq_self_eq_true s.id)
    · have hne : t.id ≠ s.id := by
        intro h
        exact hnodup.1 (h ▸ List.mem_map_of_mem BigSegment.id hs')
      rw [List.find?_cons_of_neg]
      · exact ih hnodup.2 s hs'
      · intro hbeq
        exact hne (by simpa using hbeq)

/-- Claim C7 (confirmed): the Timestamp Remapper is total (never raises),
copies each clip unchanged, appends exactly one range entry and one
timestamp entry per `big_segments_used` element in the same order, resolves
ids absent from the id-to-range map to "UNKNOWN_RANGE" and ids absent from
the timestamp map to "UNKNOWN_TIMESTAMP", and resolves present
(nonempty-id, duplicate-free) BigSegments to their real range string and
`{start, end}` pair. -/
theorem claim_C7_remap_sentinels (clips : List ConceptClip)
    (mapping_data : String → Option String) (segs : List BigSegment) :
    (run_postprocessing_map clips mapping_data segs).map MappedConceptClip.toConceptClip = clips
    ∧ (∀ mc ∈ run_postprocessing_map clips mapping_data segs,
        mc.mapped_mini_segment_ranges
          = mc.big_segments_used.map (fun b => (mapping_data b).getD "UNKNOWN_RANGE")
        ∧ mc.source_segment_timestamps.length = mc.big_segments_used.length
        ∧ ∀ (j : Nat) (b : String), mc.big_segments_used[j]? = some b →
            mc.mapped_mini_segment_ranges[j]? = some ((mapping_data b).getD "UNKNOWN_RANGE")
            ∧ mc.source_segment_timestamps[j]?
                = some (match segment_timestamp_map segs b with
                        | some (s, e) => TimestampEntry.stamps s e
                        | none => TimestampEntry.missing "UNKNOWN_TIMESTAMP"))
    ∧ (∀ s ∈ segs, s.id ≠ "" → (segs.map BigSegment.id).Nodup →
        segment_timestamp_map segs s.id = some (s.start, s.end_))
    ∧ (∀ b : String, (∀ s ∈ segs, s.id ≠ b) → segment_timestamp_map segs b = none) := by
  refine ⟨?_, ?_, ?_, ?_⟩
  · rw [run_postprocessing_map, List.map_map]
    conv_rhs => rw [← List.map_id clips]
    apply List.map_congr_left
    intro c _
    rfl
  · intro mc hmc
    rcases List.mem_map.mp hmc with ⟨c, _, rfl⟩
    refine ⟨rfl, by simp, ?_⟩
    intro j b hjb
    constructor
    · show (c.big_segments_used.map (fun big_id =>
          (mapping_data big_id).getD "UNKNOWN_RANGE"))[j]? = _
      rw [List.getElem?_map, hjb]
      rfl
    · show (c.big_segments_used.map (fun big_id =>
          match segment_timestamp_map segs big_id with
          | some (s, e) => TimestampEntry.stamps s e
          | none => TimestampEntry.missing "UNKNOWN_TIMESTAMP"))[j]? = _
      rw [List.getElem?_map, hjb]
      rfl
  · intro s hs hid hnodup
    have hfil : s ∈ (segs.filter (fun t => t.id != "")).reverse := by
      rw [List.mem_reverse]
      exact List.mem_filter.mpr ⟨hs, by simpa using hid⟩
    have hnodup' : (((segs.filter (fun t => t.id != "")).reverse).map BigSegment.id).Nodup := by
      rw [List.map_reverse, List.nodup_reverse]
      exact ((List.filter_sublist segs).map BigSegment.id).nodup hnodup
    rw [segment_timestamp_map, find?_id_eq_of_nodup _ hnodup' s hfil]
    rfl
  · intro b hb
    rw [segment_timestamp_map, List.find?_eq_none.mpr]
    · rfl
    · intro x hx
      have hxs : x ∈ segs := by
        have := List.mem_reverse.mp hx
        exact List.mem_of_mem_filter this
      intro hbeq
      exact hb x hxs (by simpa using hbeq)

/-- Witness for C7 at a concrete input: `seg_1` resolves to its real range
and pair, `seg_9` is absent and resolves to the sentinels. -/
theorem claim_C7_witness :
    (run_postprocessing_map [clipW] mappingW segsTimeW).map MappedConceptClip.toConceptClip
      = [clipW]
    ∧ segment_timestamp_map segsTimeW (⟨"seg_1", "t", 0, 4, [0, 1]⟩ : BigSegment).id
        = some ((⟨"seg_1", "t", 0, 4, [0, 1]⟩ : BigSegment).start,
                (⟨"seg_1", "t", 0, 4, [0, 1]⟩ : BigSegment).end_)
    ∧ segment_timestamp_map segsTimeW "seg_9" = none :=
  ⟨(claim_C7_remap_sentinels [clipW] mappingW segsTimeW).1,
   (claim_C7_remap_sentinels [clipW] mappingW segsTimeW).2.2.1
     ⟨"seg_1", "t", 0, 4, [0, 1]⟩ (by decide) (by decide) (by decide),
   (claim_C7_remap_sentinels [clipW] mappingW segsTimeW).2.2.2 "seg_9" (by decide)⟩

/-- Counterexample to C8 as stated for the cited service implementation: on
nonempty input with Pass A parsed as `[]`, `AgentService.run_crewai_pipeline`
returns False and does not write the final artifact. -/
theorem claim_C8_counterexample :
    run_crewai_pipeline_service (some [segB]) (some []) none
      = ⟨some [], none, false⟩ := rfl

/-- Claim C8 as amended: in the script pipeline an empty Pass A result
writes both artifacts as empty lists and returns True; the service variant
instead returns False, writing the Pass A artifact as `[]` but not the
final artifact. -/
theorem claim_C8_empty_passA (segs : List BigSegment) (passB : Option (List ConceptClip))
    (hne : segs ≠ []) :
    run_crewai_pipeline_script (some segs) (some []) passB = ⟨some [], some [], true⟩
    ∧ run_crewai_pipeline_service (some segs) (some []) passB = ⟨some [], none, false⟩ := by
  cases segs with
  | nil => exact absurd rfl hne
  | cons s ss => exact ⟨by simp [run_crewai_pipeline_script], rfl⟩

/-- Witness for the amended C8 at a concrete input. -/
theorem claim_C8_witness :
    run_crewai_pipeline_script (some [segB]) (some []) none = ⟨some [], some [], true⟩
    ∧ run_crewai_pipeline_service (some [segB]) (some []) none = ⟨some [], none, false⟩ :=
  claim_C8_empty_passA [segB] none (by decide)

/-! ## Lemmas about the retry loop -/
lemma retry_go_exhaust (oracle : Nat → Except String LLMResponse) :
    ∀ (remaining attempt : Nat),
      (∀ k, attempt ≤ k → k ≤ attempt + remaining → ∃ e, oracle k = .error e) →
      (∃ e, (retry_go oracle attempt remaining).1 = .error e)
      ∧ (retry_go oracle attempt remaining).2
          = (List.range' attempt remaining).map tenacity_delay := by
  intro remaining
  induction remaining with
  | zero =>
    intro attempt h
    obtain ⟨e, he⟩ := h attempt (le_refl _) (by omega)
    rw [retry_go, he]
    exact ⟨⟨e, rfl⟩, rfl⟩
  | succ rem ih =>
    intro attempt h
    obtain ⟨e, he⟩ := h attempt (le_refl _) (by omega)
    obtain ⟨hex, hdel⟩ := ih (attempt + 1) (fun k hk1 hk2 => h k (by omega) (by omega))
    rw [retry_go, he]
    refine ⟨hex, ?_⟩
    rw [List.range'_succ, List.map_cons, hdel]

lemma retry_go_success (oracle : Nat → Except String LLMResponse) :
    ∀ (remaining attempt k : Nat) (r : LLMResponse),
      attempt ≤ k → k ≤ attempt + remaining → oracle k = .ok r →
      (∀ j, attempt ≤ j → j < k → ∃ e, oracle j = .error e) →
      (retry_go oracle attempt remaining).1 = .ok r := by
  intro remaining
  induction remaining with
  | zero =>
    intro attempt k r h1 h2 hok _
    have hk : k = attempt := by omega
    subst hk
    rw [retry_go, hok]
  | succ rem ih =>
    intro attempt k r h1 h2 hok hfail
    by_cases hk : k = attempt
    · subst hk
      rw [retry_go, hok]
    · obtain ⟨e, he⟩ := hfail attempt (le_refl _) (by omega)
      rw [retry_go, he]
      exact ih (attempt + 1) k r (by omega) (by omega) hok
        (fun j hj1 hj2 => hfail j (by omega) hj2)

/-- Counterexample to C9 as stated for the cited script implementation:
`Agent_snippets_generation.get_llm_response_content` makes a single attempt
and returns None on its failure even though a second attempt would succeed
(the service implementation does retry and succeeds on the same oracle). -/
theorem claim_C9_counterexample :
    script_get_llm_response_content oracleFailOnce = none
    ∧ oracleFailOnce 2 = .ok (.plainString "ok")
    ∧ service_get_llm_response_content oracleFailOnce = some "ok" :=
  ⟨rfl, rfl, rfl⟩

/-- Claim C9 as amended: the service Oracle Client retries every failure
with the tenacity exponential backoff clamped to [10, 120] seconds, caps at
10 attempts, returns None (not an exception) after exhaustion, and on
success extracts plain text from either response shape; the script Oracle
Client performs a single attempt, returning None on its failure. -/
theorem claim_C9_retry_with_backoff (oracle : Nat → Except String LLMResponse) :
    ((∀ k, 1 ≤ k → k ≤ 10 → ∃ e, oracle k = .error e) →
      service_get_llm_response_content oracle = none
      ∧ (call_llm_with_retry oracle).2 = [10, 10, 10, 16, 32, 64, 120, 120, 120])
    ∧ (∀ k r, 1 ≤ k → k ≤ 10 → oracle k = .ok r →
        (∀ j, 1 ≤ j → j < k → ∃ e, oracle j = .error e) →
        service_get_llm_response_content oracle = some (extract_content r))
    ∧ (∀ e, oracle 1 = .error e → script_get_llm_response_content oracle = none)
    ∧ (∀ r, oracle 1 = .ok r → script_get_llm_response_content oracle = some (extract_content r)) := by
  refine ⟨?_, ?_, ?_, ?_⟩
  · intro h
    obtain ⟨hex, hdel⟩ := retry_go_exhaust oracle 9 1 (fun k hk1 hk2 => h k hk1 (by omega))
    constructor
    · obtain ⟨e, he⟩ := hex
      unfold service_get_llm_response_content call_llm_with_retry
      rw [he]
    · calc (call_llm_with_retry oracle).2
          = (List.range' 1 9).map tenacity_delay := hdel
        _ = [10, 10, 10, 16, 32, 64, 120, 120, 120] := by decide
  · intro k r hk1 hk2 hok hfail
    have hres := retry_go_success oracle 9 1 k r hk1 (by omega) hok hfail
    unfold service_get_llm_response_content call_llm_with_retry
    rw [hres]
  · intro e he
    unfold script_get_llm_response_content
    rw [he]
  · intro r hr
    unfold script_get_llm_response_content
    rw [hr]

/-- Witness for the amended C9: full exhaustion yields None with the
clamped exponential delay sequence, in both clients. -/
theorem claim_C9_witness :
    (service_get_llm_response_content oracleAllFail = none
      ∧ (call_llm_with_retry oracleAllFail).2 = [10, 10, 10, 16, 32, 64, 120, 120, 120])
    ∧ script_get_llm_response_content oracleAllFail = none :=
  ⟨(claim_C9_retry_with_backoff oracleAllFail).1 (fun k _ _ => ⟨"down", rfl⟩),
   (claim_C9_retry_with_backoff oracleAllFail).2.2.1 "down" rfl⟩
